import Mathlib

/-!
Shallow embedding of the `warden-rs` parser front end (the files under
`src/parser/`: `literal.rs`, `identifier.rs`, `unary_operator.rs`,
`binary_operator.rs`, `expression.rs`) together with proofs about the
claims of the specification.

The Rust code is written with the chumsky parser-combinator library.  We
embed each combinator pipeline as a pure function from the remaining
input (a `List Char`) to a result that is either
  * `ok v rest` — the recognizer matched, producing `v` and the unconsumed
    suffix `rest`,
  * `fail`      — the recognizer did not match (a recoverable parse error,
    i.e. a diagnostic in the Rust API), or
  * `abort`     — the Rust code panicked (`.unwrap()` on an `Err`), which
    aborts the process instead of producing a diagnostic.

Modelling conventions, matching the chumsky semantics used by the code:
  * `choice` tries alternatives in order and rewinds on `fail`; an `abort`
    propagates (a Rust panic is not caught by `choice`).
  * repetitions (`text::digits`, `repeated`, `separated_by`) are greedy and
    do not backtrack element-by-element.
  * `text::digits(r)` requires at least one digit; `text::int(10)` accepts
    either a nonzero digit followed by any digits, or the single digit `0`.
  * `text::ident()` is `[a-zA-Z_][a-zA-Z0-9_]*` (claims only exercise
    ASCII input).
  * `padded()` skips whitespace on both sides.
  * Rust float decoding (`f64::from_str`) is modelled with exact rational
    arithmetic (`Rat`); IEEE-754 rounding is not modelled.  The claims only
    evaluate float literals whose decimal value is exactly representable.
  * machine integers: `i64` decoding is `Nat` arithmetic with an explicit
    bound check against `2^63 - 1` (the decoded strings are unsigned), and
    the Rust `.unwrap()` of an overflowing decode is modelled as `abort`.
-/

namespace Warden

/-- Result of running an embedded chumsky recognizer on an input suffix. -/
inductive PResult (α : Type) where
  | ok (val : α) (rest : List Char)
  | fail
  | abort
deriving DecidableEq, Repr

/-- An embedded recognizer: input suffix in, `PResult` out. -/
abbrev P (α : Type) : Type := List Char → PResult α

/-- chumsky `a.or(b)` / `choice`: ordered alternative with rewind on `fail`;
a panic (`abort`) propagates. -/
def pOr {α : Type} (p q : P α) : P α := fun input =>
  match p input with
  | .ok v r => .ok v r
  | .fail => q input
  | .abort => .abort

/-- chumsky `.map`: transform the produced value. -/
def pMap {α β : Type} (f : α → β) (p : P α) : P β := fun input =>
  match p input with
  | .ok v r => .ok (f v) r
  | .fail => .fail
  | .abort => .abort

/-- chumsky `just(pat)`: match an exact character sequence, returning the
rest of the input on success. -/
def pJust : List Char → List Char → Option (List Char)
  | [], input => some input
  | _ :: _, [] => none
  | p :: ps, c :: cs => if c = p then pJust ps cs else none

/-- Numeric value of a digit character, as used by Rust
`char::is_digit(radix)` / `to_digit(radix)`. -/
def digitVal? (c : Char) : Option Nat :=
  if '0' ≤ c ∧ c ≤ '9' then some (c.toNat - 48)
  else if 'a' ≤ c ∧ c ≤ 'z' then some (c.toNat - 97 + 10)
  else if 'A' ≤ c ∧ c ≤ 'Z' then some (c.toNat - 65 + 10)
  else none

/-- Rust `char::is_digit(radix)`. -/
def isDigitRadix (radix : Nat) (c : Char) : Bool :=
  match digitVal? c with
  | some v => v < radix
  | none => false

/-- chumsky `text::digits(radix)`: a greedy run of one or more digits.
Returns the digit run and the rest. -/
def digitsRun (radix : Nat) (input : List Char) : Option (List Char × List Char) :=
  match input.takeWhile (isDigitRadix radix) with
  | [] => none
  | ds => some (ds, input.dropWhile (isDigitRadix radix))

/-- chumsky `text::int(10)`: a nonzero digit followed by any digits, or the
single digit `0`. -/
def intRun10 (input : List Char) : Option (List Char × List Char) :=
  match input with
  | [] => none
  | c :: cs =>
    if isDigitRadix 10 c ∧ c ≠ '0' then
      some (c :: cs.takeWhile (isDigitRadix 10), cs.dropWhile (isDigitRadix 10))
    else if c = '0' then some (['0'], cs)
    else none

/-- Value of a digit string in the given base (the strings fed to it only
contain valid digits of the base). -/
def decodeNat (radix : Nat) (ds : List Char) : Nat :=
  ds.foldl (fun acc c => acc * radix + ((digitVal? c).getD 0)) 0

/-- `i64::MAX`. -/
def i64Max : Nat := 9223372036854775807

/-- Rust `i64::from_str` / `i64::from_str_radix` applied to an unsigned
digit string: the value when it fits a signed 64-bit integer, `none` on
overflow (the caller in `literal.rs` unwraps this). -/
def decodeI64? (radix : Nat) (ds : List Char) : Option Int :=
  if decodeNat radix ds ≤ i64Max then some ((decodeNat radix ds : Nat) : Int) else none

/-- Rust `char::is_whitespace`, restricted to the ASCII whitespace
characters (claims only exercise ASCII input). -/
def isWS (c : Char) : Bool :=
  c = ' ' ∨ c = '\t' ∨ c = '\n' ∨ c = '\r' ∨ c = '\x0b' ∨ c = '\x0c'

/-- Skip insignificant whitespace (one side of chumsky `.padded()`). -/
def skipWS (input : List Char) : List Char := input.dropWhile isWS

/-- chumsky `.padded()`: whitespace may surround the token. -/
def padded {α : Type} (p : P α) : P α := fun input =>
  match p (skipWS input) with
  | .ok v r => .ok v (skipWS r)
  | .fail => .fail
  | .abort => .abort

/-- chumsky `text::ident()` start character (ASCII). -/
def identStart (c : Char) : Bool := c.isAlpha || c = '_'

/-- chumsky `text::ident()` continuation character (ASCII). -/
def identCont (c : Char) : Bool := c.isAlphanum || c = '_'

/-- chumsky `text::ident()`: `[a-zA-Z_][a-zA-Z0-9_]*`, greedy.  Returns the
matched name and the rest. -/
def identifierRun (input : List Char) : Option (List Char × List Char) :=
  match input with
  | [] => none
  | c :: cs =>
    if identStart c then some (c :: cs.takeWhile identCont, cs.dropWhile identCont)
    else none

/-! ## The AST data model (`literal.rs`, `identifier.rs`, `unary_operator.rs`,
`binary_operator.rs`, `quantifier.rs`, `expression.rs`) -/

/-- `Literal` from `literal.rs`.  The float payload is the exact rational
value of the decimal text (see the module comment). -/
inductive Literal where
  | null
  | undefined
  | integer (n : Int)
  | float (q : Rat)
  | string (s : List Char)
  | boolean (b : Bool)
deriving DecidableEq, Repr

/-- `Identifier` from `identifier.rs`. -/
structure Identifier where
  name : List Char
deriving DecidableEq, Repr

/-- `UnaryOperator` from `unary_operator.rs`. -/
inductive UnaryOperator where
  | plus
  | minus
  | not
  | isEmpty
  | isNotEmpty
  | isDefined
  | isNotDefined
deriving DecidableEq, Repr

/-- `BinaryOperator` from `binary_operator.rs`. -/
inductive BinaryOperator where
  | add
  | subtract
  | multiply
  | divide
  | modulus
  | equals
  | notEquals
  | lessThan
  | greaterThan
  | lessThanOrEqual
  | greaterThanOrEqual
  | and
  | or
  | xor
  | contains
  | inOp
  | matches
  | notMatches
  | is
  | isNot
deriving DecidableEq, Repr

/-- `QuantifierType` from `quantifier.rs`. -/
inductive QuantifierType where
  | all
  | any
  | filter
  | map
deriving DecidableEq, Repr

/-- `Expression` from `expression.rs`.  Rust `Box`/`Vec`/`Option` payloads
become plain recursive fields, `List`, and `Option`. -/
inductive Expression where
  | literal (value : Literal)
  | identifier (ident : Identifier)
  | unaryExpr (op : UnaryOperator) (expr : Expression)
  | binaryExpr (left : Expression) (op : BinaryOperator) (right : Expression)
  | call (func : Identifier) (args : List Expression)
  | index (collection : Expression) (idx : Expression)
  | slice (collection : Expression) (start : Option Expression) (end_ : Option Expression)
  | select (object : Expression) (field : Identifier)
  | list (elements : List Expression)
  | map (pairs : List (Expression × Expression))
  | rule (when : Option Expression) (body : Expression)
  | quantifier (quant : QuantifierType) (collection : Expression)
      (key : Option Identifier) (value : Identifier) (body : Expression)
deriving Repr

/-! ## Literal lexer (`Literal::parser` in `literal.rs`) -/

/-- Fractional part value: digits `fs` right of the decimal point. -/
def fracVal (fs : List Char) : Rat :=
  (decodeNat 10 fs : Rat) / ((10 : Rat) ^ fs.length)

/-- Signed exponent value from the optional sign character and digits. -/
def expVal (sign : Option Char) (eds : List Char) : Int :=
  if sign = some '-' then -(decodeNat 10 eds : Int) else (decodeNat 10 eds : Int)

/-- Exact decimal value `intpart.fracpart × 10^e`. -/
def floatVal (intDs fracDs : List Char) (e : Int) : Rat :=
  ((decodeNat 10 intDs : Rat) + fracVal fracDs) * (10 : Rat) ^ e

/-- The `exponent` sub-recognizer of `literal.rs`:
`(e|E) [+|-] decimals`.  Returns the optional sign, the digits, and the
rest. -/
def exponentRun (input : List Char) : Option ((Option Char × List Char) × List Char) :=
  match input with
  | [] => none
  | c :: cs =>
    if c = 'e' ∨ c = 'E' then
      match cs with
      | [] => none
      | s :: cs2 =>
        if s = '+' ∨ s = '-' then
          match digitsRun 10 cs2 with
          | some (ds, rest) => some ((some s, ds), rest)
          | none => none
        else
          match digitsRun 10 cs with
          | some (ds, rest) => some ((none, ds), rest)
          | none => none
    else none

/-- Float form 1: `decimals "." [decimals] [exponent]`. -/
def floatBranch1 : P Literal := fun input =>
  match digitsRun 10 input with
  | none => .fail
  | some (ds, r1) =>
    match r1 with
    | '.' :: r2 =>
      match digitsRun 10 r2 with
      | some (fs, r3) =>
        match exponentRun r3 with
        | some ((sgn, eds), r4) => .ok (.float (floatVal ds fs (expVal sgn eds))) r4
        | none => .ok (.float (floatVal ds fs 0)) r3
      | none =>
        match exponentRun r2 with
        | some ((sgn, eds), r4) => .ok (.float (floatVal ds [] (expVal sgn eds))) r4
        | none => .ok (.float (floatVal ds [] 0)) r2
    | _ => .fail

/-- Float form 2: `decimals exponent` (no dot). -/
def floatBranch2 : P Literal := fun input =>
  match digitsRun 10 input with
  | none => .fail
  | some (ds, r1) =>
    match exponentRun r1 with
    | some ((sgn, eds), r2) => .ok (.float (floatVal ds [] (expVal sgn eds))) r2
    | none => .fail

/-- Float form 3: `"." decimals [exponent]`. -/
def floatBranch3 : P Literal := fun input =>
  match input with
  | '.' :: r1 =>
    match digitsRun 10 r1 with
    | some (fs, r2) =>
      match exponentRun r2 with
      | some ((sgn, eds), r3) => .ok (.float (floatVal [] fs (expVal sgn eds))) r3
      | none => .ok (.float (floatVal [] fs 0)) r2
    | none => .fail
  | _ => .fail

/-- The `float` recognizer of `literal.rs`: the three forms in source
order. -/
def floatLexer : P Literal := pOr floatBranch1 (pOr floatBranch2 floatBranch3)

/-- The `hex` recognizer: `("0x"|"0X") hex_digits`, decoded with
`i64::from_str_radix(s, 16).unwrap()` — overflow aborts. -/
def hexLexer : P Literal := fun input =>
  match (match pJust ['0', 'x'] input with
         | some r => some r
         | none => pJust ['0', 'X'] input) with
  | none => .fail
  | some r1 =>
    match digitsRun 16 r1 with
    | none => .fail
    | some (ds, r2) =>
      match decodeI64? 16 ds with
      | some n => .ok (.integer n) r2
      | none => .abort

/-- The `octal` recognizer: `just('0').then(digits(8))`, sliced, decoded
with `i64::from_str_radix(s, 8).unwrap()` — overflow aborts.  The slice
keeps the leading `0`, and the source special-cases the slice `"0"`. -/
def octalLexer : P Literal := fun input =>
  match input with
  | '0' :: r1 =>
    match digitsRun 8 r1 with
    | none => .fail
    | some (ds, r2) =>
      if ('0' :: ds) = ['0'] then .ok (.integer 0) r2
      else
        match decodeI64? 8 ('0' :: ds) with
        | some n => .ok (.integer n) r2
        | none => .abort
  | _ => .fail

/-- The `decimal` recognizer: `text::int(10)` decoded with
`s.parse::<i64>().unwrap()` — overflow aborts. -/
def decimalLexer : P Literal := fun input =>
  match intRun10 input with
  | none => .fail
  | some (ds, r1) =>
    match decodeI64? 10 ds with
    | some n => .ok (.integer n) r1
    | none => .abort

/-- The `integer` recognizer: `choice((hex, octal, decimal))`. -/
def integerLexer : P Literal := pOr hexLexer (pOr octalLexer decimalLexer)

/-- The `boolean` recognizer: `just("true") | just("false")`. -/
def booleanLexer : P Literal := fun input =>
  match pJust ['t', 'r', 'u', 'e'] input with
  | some r => .ok (.boolean true) r
  | none =>
    match pJust ['f', 'a', 'l', 's', 'e'] input with
    | some r => .ok (.boolean false) r
    | none => .fail

/-- The `string` recognizer: `'"' (any char except '"')* '"'`. -/
def stringLexer : P Literal := fun input =>
  match input with
  | '"' :: r1 =>
    match r1.dropWhile (fun c => c ≠ '"') with
    | '"' :: r2 => .ok (.string (r1.takeWhile (fun c => c ≠ '"'))) r2
    | _ => .fail
  | _ => .fail

/-- The `undefined` recognizer. -/
def undefinedLexer : P Literal := fun input =>
  match pJust "undefined".toList input with
  | some r => .ok .undefined r
  | none => .fail

/-- The `null` recognizer. -/
def nullLexer : P Literal := fun input =>
  match pJust "null".toList input with
  | some r => .ok .null r
  | none => .fail

/-- `Literal::parser`: `choice((float, integer, string, boolean,
undefined, null))`. -/
def Literal.parser : P Literal :=
  pOr floatLexer (pOr integerLexer (pOr stringLexer
    (pOr booleanLexer (pOr undefinedLexer nullLexer))))

/-- chumsky `Parser::parse`: run and require the whole input consumed;
leftover input is a diagnostic. -/
def parseComplete {α : Type} (p : P α) (input : List Char) : PResult α :=
  match p input with
  | .ok v rest => if rest.isEmpty then .ok v [] else .fail
  | .fail => .fail
  | .abort => .abort

/-- `Literal::parser().parse(input)`. -/
def Literal.parse (input : List Char) : PResult Literal :=
  parseComplete Literal.parser input

/-! ## Identifier lexer (`Identifier::parser` in `identifier.rs`) -/

/-- `Identifier::parser`: `text::ident()` mapped into `Identifier`. -/
def Identifier.parser : P Identifier := fun input =>
  match identifierRun input with
  | some (n, r) => .ok ⟨n⟩ r
  | none => .fail

/-! ## Unary operator lexer (`UnaryOperator::parser` in
`unary_operator.rs`) -/

/-- A `just(s).to(u)` alternative of the unary-operator `choice`. -/
def justUn (s : String) (u : UnaryOperator) : P UnaryOperator := fun input =>
  match pJust s.toList input with
  | some r => .ok u r
  | none => .fail

/-- `UnaryOperator::parser`: the source's `choice` in source order
(`+`, `-`, `!`, `is empty`, `is not empty`, `is defined`,
`is not defined`); no padding. -/
def UnaryOperator.parser : P UnaryOperator :=
  pOr (justUn "+" .plus) (pOr (justUn "-" .minus) (pOr (justUn "!" .not)
    (pOr (justUn "is empty" .isEmpty) (pOr (justUn "is not empty" .isNotEmpty)
      (pOr (justUn "is defined" .isDefined) (justUn "is not defined" .isNotDefined))))))

/-! ## Binary operator lexers (`binary_operator.rs`) -/

/-- A `just(s).to(b)` alternative of a binary-operator `choice`. -/
def justBin (s : String) (b : BinaryOperator) : P BinaryOperator := fun input =>
  match pJust s.toList input with
  | some r => .ok b r
  | none => .fail

/-- `BinaryOperator::multiplicative`: `* / %`, `.padded()`. -/
def BinaryOperator.multiplicative : P BinaryOperator :=
  padded (pOr (justBin "*" .multiply) (pOr (justBin "/" .divide) (justBin "%" .modulus)))

/-- `BinaryOperator::additive`: `+ -`, `.padded()`. -/
def BinaryOperator.additive : P BinaryOperator :=
  padded (pOr (justBin "+" .add) (justBin "-" .subtract))

/-- `BinaryOperator::comparison`: the source's `choice` in source order,
`.padded()`.  Note the word forms are bare `just` matches with no
trailing-word-boundary requirement. -/
def BinaryOperator.comparison : P BinaryOperator :=
  padded (pOr (justBin "==" .equals) (pOr (justBin "!=" .notEquals)
    (pOr (justBin "<=" .lessThanOrEqual) (pOr (justBin "<" .lessThan)
      (pOr (justBin ">=" .greaterThanOrEqual) (pOr (justBin ">" .greaterThan)
        (pOr (justBin "is not" .isNot) (pOr (justBin "is" .is)
          (pOr (justBin "matches" .matches) (pOr (justBin "not matches" .notMatches)
            (pOr (justBin "contains" .contains) (justBin "in" .inOp))))))))))))

/-- `BinaryOperator::and`: `and`, `.padded()`. -/
def BinaryOperator.andTier : P BinaryOperator := padded (justBin "and" .and)

/-- `BinaryOperator::or_xor`: `or | xor`, `.padded()`. -/
def BinaryOperator.orXor : P BinaryOperator :=
  padded (pOr (justBin "or" .or) (justBin "xor" .xor))

/-! ## Expression parser (`Expression::parser` in `expression.rs`)

The source composes a `primary` choice (`function`, `literal`,
`identifier`, `unary`) with chumsky's pratt engine over five
left-associative infix tiers, `Associativity::Left(s)` with strengths
5,4,3,2,1 in the source's tuple order.  chumsky gives a `Left(s)` operator
left binding power `2*s` and parses its right operand with minimum power
`2*s + 1`; the climb starts at minimum power 0.

The recursion of `recursive(|expr| ...)` is embedded with a fuel
parameter: every recursive step consumes at least one input character, so
any fuel larger than the input length computes the same result as the
Rust parser; `Expression.parse` supplies `8 * length + 8`. -/

/-- One pratt infix attempt for a tier: parse the tier's operator, then
admit it only when its left binding power `2*s` reaches the current
minimum. -/
def tryTier (s : Nat) (p : P BinaryOperator) (minPower : Nat) (input : List Char) :
    Option (BinaryOperator × List Char) :=
  match p input with
  | .ok op r => if minPower ≤ 2 * s then some (op, r) else none
  | _ => none

/-- Look for the next admissible infix operator, trying the five tiers in
the source's tuple order; returns the tier strength, the operator, and
the rest. -/
def tryInfix (minPower : Nat) (input : List Char) :
    Option (Nat × BinaryOperator × List Char) :=
  match tryTier 5 BinaryOperator.multiplicative minPower input with
  | some (op, r) => some (5, op, r)
  | none =>
  match tryTier 4 BinaryOperator.additive minPower input with
  | some (op, r) => some (4, op, r)
  | none =>
  match tryTier 3 BinaryOperator.comparison minPower input with
  | some (op, r) => some (3, op, r)
  | none =>
  match tryTier 2 BinaryOperator.andTier minPower input with
  | some (op, r) => some (2, op, r)
  | none =>
  match tryTier 1 BinaryOperator.orXor minPower input with
  | some (op, r) => some (1, op, r)
  | none => none

/-- The pratt climb loop: fold admissible infix operators into
`BinaryExpr` nodes, parsing each right operand with `rhsP` at the
operator's right binding power.  A failed right operand rewinds to before
the operator and ends the climb. -/
def prattLoop (rhsP : Nat → List Char → PResult Expression) :
    Nat → Nat → Expression → List Char → PResult Expression
  | 0, _, lhs, input => .ok lhs input
  | fuel + 1, minPower, lhs, input =>
    match tryInfix minPower input with
    | none => .ok lhs input
    | some (s, op, r1) =>
      match rhsP (2 * s + 1) r1 with
      | .ok rhs r2 => prattLoop rhsP fuel minPower (.binaryExpr lhs op rhs) r2
      | .fail => .ok lhs input
      | .abort => .abort

/-- The separator of the call-argument list: `just(',').padded()`. -/
def commaPad (input : List Char) : Option (List Char) :=
  match skipWS input with
  | ',' :: r => some (skipWS r)
  | _ => none

/-- `just('(').padded()`. -/
def parenOpen (input : List Char) : Option (List Char) :=
  match skipWS input with
  | '(' :: r => some (skipWS r)
  | _ => none

/-- `just(')').padded()`. -/
def parenClose (input : List Char) : Option (List Char) :=
  match skipWS input with
  | ')' :: r => some (skipWS r)
  | _ => none

/-- The iteration of `separated_by`: repeatedly try separator-then-item,
rewinding the whole attempt when it cannot complete. -/
def argsLoop (itemP : List Char → PResult Expression) :
    Nat → List Expression → List Char → PResult (List Expression)
  | 0, acc, input => .ok acc.reverse input
  | fuel + 1, acc, input =>
    match commaPad input with
    | none => .ok acc.reverse input
    | some r1 =>
      match itemP r1 with
      | .ok e r2 => argsLoop itemP fuel (e :: acc) r2
      | .fail => .ok acc.reverse input
      | .abort => .abort

/-- `args.separated_by(just(',').padded()).collect()`: zero or more
comma-separated items. -/
def argsList (itemP : List Char → PResult Expression) (fuel : Nat)
    (input : List Char) : PResult (List Expression) :=
  match itemP input with
    | .fail => .ok [] input
    | .abort => .abort
    | .ok e r => argsLoop itemP fuel [e] r

/-- `Expression::function`: an identifier followed by a parenthesized,
comma-separated argument list, each argument a full expression. -/
def functionParse (itemP : List Char → PResult Expression) (fuel : Nat)
    (input : List Char) : PResult Expression :=
  match identifierRun input with
    | none => .fail
    | some (name, r1) =>
      match parenOpen r1 with
      | none => .fail
      | some r2 =>
        match argsList itemP fuel r2 with
        | .ok args r3 =>
          match parenClose r3 with
          | some r4 => .ok (.call ⟨name⟩ args) r4
          | none => .fail
        | .fail => .fail
        | .abort => .abort

/-- The `unary` alternative of `primary`:
`UnaryOperator::parser().then(expr)`. -/
def unaryParse (expr0 : List Char → PResult Expression)
    (input : List Char) : PResult Expression :=
  match UnaryOperator.parser input with
    | .fail => .fail
    | .abort => .abort
    | .ok op r =>
      match expr0 r with
      | .ok e r2 => .ok (.unaryExpr op e) r2
      | .fail => .fail
      | .abort => .abort

/-- The `primary` choice of `Expression::parser`:
`choice((function, literal, identifier, unary))` in source order, with
`expr0` the recursive expression parser. -/
def primaryParse (expr0 : List Char → PResult Expression) (fuel : Nat) :
    List Char → PResult Expression :=
  pOr (functionParse expr0 fuel)
    (pOr (pMap Expression.literal Literal.parser)
      (pOr (pMap Expression.identifier Identifier.parser)
        (unaryParse expr0)))

/-- The fuelled pratt engine `pratt_go`: a `primary`, then the climb loop
at the given minimum binding power.  The recursive knot of
`recursive(|expr| ...)` reappears as `exprClimb fuel 0`. -/
def exprClimb : Nat → Nat → List Char → PResult Expression
  | 0, _, _ => .fail
  | fuel + 1, minPower, input =>
    match primaryParse (exprClimb fuel 0) fuel input with
    | .ok lhs rest => prattLoop (exprClimb fuel) fuel minPower lhs rest
    | .fail => .fail
    | .abort => .abort

/-- Fuel that always dominates the recursion depth of `exprClimb` (every
recursive step consumes at least one character). -/
def exprFuel (input : List Char) : Nat := 8 * input.length + 8

/-- `Expression::parser`: the pratt parse starting at minimum binding
power 0. -/
def Expression.parser (input : List Char) : PResult Expression :=
  exprClimb (exprFuel input) 0 input

/-- `Expression::parser().parse(input)`: the full expression parse,
requiring the whole input consumed. -/
def Expression.parse (input : List Char) : PResult Expression :=
  parseComplete Expression.parser input

/-! ## Predicates used by the claims -/

/-- Whether a literal is a `Float` variant. -/
def Literal.isFloat : Literal → Bool
  | .float _ => true
  | _ => false

/-- A literal value is non-negative: the numeric payloads are `≥ 0`
(vacuous for the non-numeric variants). -/
def Literal.nonNegative : Literal → Prop
  | .integer n => 0 ≤ n
  | .float q => 0 ≤ q
  | _ => True

/-- The multi-word unary operators (`is empty`, `is not empty`,
`is defined`, `is not defined`). -/
def UnaryOperator.multiword : UnaryOperator → Bool
  | .isEmpty => true
  | .isNotEmpty => true
  | .isDefined => true
  | .isNotDefined => true
  | _ => false

mutual

/-- No subterm of the expression is a `UnaryExpr` carrying a multi-word
unary operator. -/
def Expression.noMultiwordUnary : Expression → Bool
  | .literal _ => true
  | .identifier _ => true
  | .unaryExpr op e => !op.multiword && e.noMultiwordUnary
  | .binaryExpr l _ r => l.noMultiwordUnary && r.noMultiwordUnary
  | .call _ args => noMultiwordUnaryList args
  | .index c i => c.noMultiwordUnary && i.noMultiwordUnary
  | .slice c s e =>
      c.noMultiwordUnary && noMultiwordUnaryOpt s && noMultiwordUnaryOpt e
  | .select o _ => o.noMultiwordUnary
  | .list es => noMultiwordUnaryList es
  | .map ps => noMultiwordUnaryPairs ps
  | .rule w b => noMultiwordUnaryOpt w && b.noMultiwordUnary
  | .quantifier _ c _ _ b => c.noMultiwordUnary && b.noMultiwordUnary

/-- `Expression.noMultiwordUnary` over every element of a list. -/
def noMultiwordUnaryList : List Expression → Bool
  | [] => true
  | e :: es => e.noMultiwordUnary && noMultiwordUnaryList es

/-- `Expression.noMultiwordUnary` over both components of every pair. -/
def noMultiwordUnaryPairs : List (Expression × Expression) → Bool
  | [] => true
  | (a, b) :: ps => a.noMultiwordUnary && b.noMultiwordUnary && noMultiwordUnaryPairs ps

/-- `Expression.noMultiwordUnary` over an optional child. -/
def noMultiwordUnaryOpt : Option Expression → Bool
  | some e => e.noMultiwordUnary
  | none => true

end

/-! ## Helper lemmas about the combinators -/

theorem pOr_ok {α : Type} {p q : P α} {input : List Char} {v : α} {r : List Char}
    (h : pOr p q input = .ok v r) :
    p input = .ok v r ∨ (p input = .fail ∧ q input = .ok v r) := by
  unfold pOr at h
  split at h
  · rename_i w s hw
    exact Or.inl (hw.trans h)
  · rename_i hw
    exact Or.inr ⟨hw, h⟩
  · exact absurd h (by simp)

theorem pMap_ok {α β : Type} {f : α → β} {p : P α} {input : List Char} {v : β}
    {r : List Char} (h : pMap f p input = .ok v r) :
    ∃ w, p input = .ok w r ∧ v = f w := by
  unfold pMap at h
  split at h
  · rename_i w s hw
    injection h with h1 h2
    exact ⟨w, h2 ▸ hw, h1.symm⟩
  · exact absurd h (by simp)
  · exact absurd h (by simp)

theorem pMap_fail {α β : Type} {f : α → β} {p : P α} {input : List Char}
    (h : pMap f p input = .fail) : p input = .fail := by
  unfold pMap at h
  split at h
  · exact absurd h (by simp)
  · assumption
  · exact absurd h (by simp)

theorem pJust_cons {p : Char} {ps input r : List Char}
    (h : pJust (p :: ps) input = some r) :
    ∃ cs, input = p :: cs ∧ pJust ps cs = some r := by
  cases input with
  | nil => exact absurd h (by simp [pJust])
  | cons c cs =>
    unfold pJust at h
    split at h
    · rename_i hc
      exact ⟨cs, by rw [hc], h⟩
    · exact absurd h (by simp)

theorem justUn_ok {s : String} {u : UnaryOperator} {input : List Char}
    {op : UnaryOperator} {r : List Char} (h : justUn s u input = .ok op r) :
    op = u ∧ pJust s.toList input = some r := by
  unfold justUn at h
  split at h
  · rename_i rr hr
    injection h with h1 h2
    exact ⟨h1.symm, h2 ▸ hr⟩
  · exact absurd h (by simp)

theorem identifierParser_fail {input : List Char}
    (h : Identifier.parser input = .fail) : identifierRun input = none := by
  unfold Identifier.parser at h
  split at h
  · exact absurd h (by simp)
  · assumption

/-- Under a failed identifier recognizer (the situation in which the
`unary` alternative of `primary` is reached), the unary-operator lexer
can only produce a single-character operator: the multi-word forms all
start with the identifier-start letter `i`. -/
theorem unaryOp_no_multiword {input : List Char} {op : UnaryOperator} {r : List Char}
    (hid : identifierRun input = none) (h : UnaryOperator.parser input = .ok op r) :
    op.multiword = false := by
  cases input with
  | nil =>
    have h0 : UnaryOperator.parser [] = .fail := rfl
    rw [h0] at h
    exact absurd h (by simp)
  | cons c cs =>
    have hc : identStart c = false := by
      by_cases hs : identStart c = true
      · exfalso
        have hrun : identifierRun (c :: cs) =
            some (c :: cs.takeWhile identCont, cs.dropWhile identCont) := by
          unfold identifierRun
          simp [hs]
        rw [hrun] at hid
        exact absurd hid (by simp)
      · simpa using hs
    have headI : ∀ (s : String) (u : UnaryOperator),
        s.toList = 'i' :: (s.toList.tail) → justUn s u (c :: cs) = .ok op r → False := by
      intro s u hs h1
      have h2 := (justUn_ok h1).2
      rw [hs] at h2
      rcases pJust_cons h2 with ⟨cs2, hcons, -⟩
      have hci : c = 'i' := by injection hcons
      rw [hci] at hc
      exact absurd hc (by decide)
    unfold UnaryOperator.parser at h
    rcases pOr_ok h with h1 | ⟨-, h⟩
    · rw [(justUn_ok h1).1]; rfl
    rcases pOr_ok h with h1 | ⟨-, h⟩
    · rw [(justUn_ok h1).1]; rfl
    rcases pOr_ok h with h1 | ⟨-, h⟩
    · rw [(justUn_ok h1).1]; rfl
    rcases pOr_ok h with h1 | ⟨-, h⟩
    · exact absurd h1 (headI "is empty" .isEmpty rfl)
    rcases pOr_ok h with h1 | ⟨-, h⟩
    · exact absurd h1 (headI "is not empty" .isNotEmpty rfl)
    rcases pOr_ok h with h1 | ⟨-, h⟩
    · exact absurd h1 (headI "is defined" .isDefined rfl)
    · exact absurd h (headI "is not defined" .isNotDefined rfl)

/-! ## Shape lemmas for the literal lexer -/

theorem floatVal_nonneg (ds fs : List Char) (e : Int) : 0 ≤ floatVal ds fs e := by
  unfold floatVal fracVal
  have h10 : (0 : Rat) ≤ 10 := by norm_num
  exact mul_nonneg
    (add_nonneg (Nat.cast_nonneg _) (div_nonneg (Nat.cast_nonneg _) (pow_nonneg h10 _)))
    (zpow_nonneg h10 _)

theorem floatBranch1_ok {input : List Char} {v : Literal} {r : List Char}
    (h : floatBranch1 input = .ok v r) : ∃ q, v = .float q ∧ 0 ≤ q := by
  unfold floatBranch1 at h
  repeat' split at h
  all_goals first
    | (injection h with h1 h2; exact ⟨_, h1.symm, floatVal_nonneg _ _ _⟩)
    | injection h

theorem floatBranch2_ok {input : List Char} {v : Literal} {r : List Char}
    (h : floatBranch2 input = .ok v r) : ∃ q, v = .float q ∧ 0 ≤ q := by
  unfold floatBranch2 at h
  repeat' split at h
  all_goals first
    | (injection h with h1 h2; exact ⟨_, h1.symm, floatVal_nonneg _ _ _⟩)
    | injection h

theorem floatBranch3_ok {input : List Char} {v : Literal} {r : List Char}
    (h : floatBranch3 input = .ok v r) : ∃ q, v = .float q ∧ 0 ≤ q := by
  unfold floatBranch3 at h
  repeat' split at h
  all_goals first
    | (injection h with h1 h2; exact ⟨_, h1.symm, floatVal_nonneg _ _ _⟩)
    | injection h

theorem floatLexer_ok {input : List Char} {v : Literal} {r : List Char}
    (h : floatLexer input = .ok v r) : ∃ q, v = .float q ∧ 0 ≤ q := by
  unfold floatLexer at h
  rcases pOr_ok h with h1 | ⟨-, h⟩
  · exact floatBranch1_ok h1
  rcases pOr_ok h with h1 | ⟨-, h1⟩
  · exact floatBranch2_ok h1
  · exact floatBranch3_ok h1

theorem decodeI64?_nonneg {radix : Nat} {ds : List Char} {n : Int}
    (h : decodeI64? radix ds = some n) : 0 ≤ n := by
  unfold decodeI64? at h
  split at h
  · injection h with h1
    rw [← h1]
    exact Int.natCast_nonneg _
  · exact absurd h (by simp)

theorem hexLexer_ok {input : List Char} {v : Literal} {r : List Char}
    (h : hexLexer input = .ok v r) : ∃ n, v = .integer n ∧ 0 ≤ n := by
  unfold hexLexer at h
  repeat' split at h
  all_goals first
    | (rename_i hdec; injection h with h1 h2; exact ⟨_, h1.symm, decodeI64?_nonneg hdec⟩)
    | injection h

theorem octalLexer_ok {input : List Char} {v : Literal} {r : List Char}
    (h : octalLexer input = .ok v r) : ∃ n, v = .integer n ∧ 0 ≤ n := by
  unfold octalLexer at h
  repeat' split at h
  all_goals first
    | (rename_i hdec; injection h with h1 h2; exact ⟨_, h1.symm, decodeI64?_nonneg hdec⟩)
    | (injection h with h1 h2; exact ⟨0, h1.symm, le_refl 0⟩)
    | injection h

theorem decimalLexer_ok {input : List Char} {v : Literal} {r : List Char}
    (h : decimalLexer input = .ok v r) : ∃ n, v = .integer n ∧ 0 ≤ n := by
  unfold decimalLexer at h
  repeat' split at h
  all_goals first
    | (rename_i hdec; injection h with h1 h2; exact ⟨_, h1.symm, decodeI64?_nonneg hdec⟩)
    | injection h

theorem integerLexer_ok {input : List Char} {v : Literal} {r : List Char}
    (h : integerLexer input = .ok v r) : ∃ n, v = .integer n ∧ 0 ≤ n := by
  unfold integerLexer at h
  rcases pOr_ok h with h1 | ⟨-, h⟩
  · exact hexLexer_ok h1
  rcases pOr_ok h with h1 | ⟨-, h1⟩
  · exact octalLexer_ok h1
  · exact decimalLexer_ok h1

theorem stringLexer_ok {input : List Char} {v : Literal} {r : List Char}
    (h : stringLexer input = .ok v r) : ∃ s, v = .string s := by
  unfold stringLexer at h
  repeat' split at h
  all_goals first
    | (injection h with h1 h2; exact ⟨_, h1.symm⟩)
    | injection h

theorem booleanLexer_ok {input : List Char} {v : Literal} {r : List Char}
    (h : booleanLexer input = .ok v r) : ∃ b, v = .boolean b := by
  unfold booleanLexer at h
  repeat' split at h
  all_goals first
    | (injection h with h1 h2; exact ⟨_, h1.symm⟩)
    | injection h

theorem undefinedLexer_ok {input : List Char} {v : Literal} {r : List Char}
    (h : undefinedLexer input = .ok v r) : v = .undefined := by
  unfold undefinedLexer at h
  repeat' split at h
  all_goals first
    | (injection h with h1 h2; exact h1.symm)
    | injection h

theorem nullLexer_ok {input : List Char} {v : Literal} {r : List Char}
    (h : nullLexer input = .ok v r) : v = .null := by
  unfold nullLexer at h
  repeat' split at h
  all_goals first
    | (injection h with h1 h2; exact h1.symm)
    | injection h

/-! ## Invariant lemmas for the expression parser -/

theorem noMWList_iff (l : List Expression) :
    noMultiwordUnaryList l = true ↔ ∀ e ∈ l, e.noMultiwordUnary = true := by
  induction l with
  | nil => simp [noMultiwordUnaryList]
  | cons e es ih => simp [noMultiwordUnaryList, ih]

theorem prattLoop_inv (rhsP : Nat → List Char → PResult Expression)
    (hr : ∀ mp inp e r, rhsP mp inp = .ok e r → e.noMultiwordUnary = true) :
    ∀ fuel minPower lhs input e r, lhs.noMultiwordUnary = true →
      prattLoop rhsP fuel minPower lhs input = .ok e r →
      e.noMultiwordUnary = true := by
  intro fuel
  induction fuel with
  | zero =>
    intro mp lhs input e r hl h
    unfold prattLoop at h
    injection h with h1 h2
    exact h1 ▸ hl
  | succ f ih =>
    intro mp lhs input e r hl h
    unfold prattLoop at h
    split at h
    · injection h with h1 h2
      exact h1 ▸ hl
    · rename_i s op r1 hinf
      split at h
      · rename_i rhs r2 hrhs
        refine ih mp (.binaryExpr lhs op rhs) r2 e r ?_ h
        have hr2 := hr _ _ _ _ hrhs
        simp [Expression.noMultiwordUnary, hl, hr2]
      · injection h with h1 h2
        exact h1 ▸ hl
      · exact absurd h (by simp)

theorem argsLoop_inv (itemP : List Char → PResult Expression)
    (hi : ∀ inp e r, itemP inp = .ok e r → e.noMultiwordUnary = true) :
    ∀ fuel acc input es r, (∀ a ∈ acc, a.noMultiwordUnary = true) →
      argsLoop itemP fuel acc input = .ok es r →
      ∀ a ∈ es, a.noMultiwordUnary = true := by
  intro fuel
  induction fuel with
  | zero =>
    intro acc input es r hacc h
    unfold argsLoop at h
    injection h with h1 h2
    subst h1
    intro a ha
    exact hacc a (List.mem_reverse.mp ha)
  | succ f ih =>
    intro acc input es r hacc h
    unfold argsLoop at h
    split at h
    · injection h with h1 h2
      subst h1
      intro a ha
      exact hacc a (List.mem_reverse.mp ha)
    · rename_i r1 hcomma
      split at h
      · rename_i e0 r2 hitem
        refine ih (e0 :: acc) r2 es r ?_ h
        intro a ha
        rcases List.mem_cons.mp ha with rfl | ha2
        · exact hi _ _ _ hitem
        · exact hacc a ha2
      · injection h with h1 h2
        subst h1
        intro a ha
        exact hacc a (List.mem_reverse.mp ha)
      · exact absurd h (by simp)

theorem argsList_inv (itemP : List Char → PResult Expression)
    (hi : ∀ inp e r, itemP inp = .ok e r → e.noMultiwordUnary = true)
    (fuel : Nat) {input : List Char} {es : List Expression} {r : List Char}
    (h : argsList itemP fuel input = .ok es r) :
    ∀ a ∈ es, a.noMultiwordUnary = true := by
  unfold argsList at h
  split at h
  · injection h with h1 h2
    subst h1
    intro a ha
    exact absurd ha (by simp)
  · exact absurd h (by simp)
  · rename_i e0 r0 hitem
    refine argsLoop_inv itemP hi fuel [e0] r0 es r ?_ h
    intro a ha
    rcases List.mem_singleton.mp ha with rfl
    exact hi _ _ _ hitem

theorem functionParse_inv (itemP : List Char → PResult Expression)
    (hi : ∀ inp e r, itemP inp = .ok e r → e.noMultiwordUnary = true)
    (fuel : Nat) {input : List Char} {e : Expression} {r : List Char}
    (h : functionParse itemP fuel input = .ok e r) :
    e.noMultiwordUnary = true := by
  unfold functionParse at h
  split at h
  · exact absurd h (by simp)
  · rename_i name r1 hname
    split at h
    · exact absurd h (by simp)
    · rename_i r2 hopen
      split at h
      · rename_i args r3 hargs
        split at h
        · rename_i r4 hclose
          injection h with h1 h2
          rw [← h1]
          have hargsAll := argsList_inv itemP hi fuel hargs
          simp [Expression.noMultiwordUnary, (noMWList_iff args).mpr hargsAll]
        · exact absurd h (by simp)
      · exact absurd h (by simp)
      · exact absurd h (by simp)

theorem unaryParse_inv (expr0 : List Char → PResult Expression)
    (he : ∀ inp e r, expr0 inp = .ok e r → e.noMultiwordUnary = true)
    {input : List Char} {e : Expression} {r : List Char}
    (hid : identifierRun input = none)
    (h : unaryParse expr0 input = .ok e r) : e.noMultiwordUnary = true := by
  unfold unaryParse at h
  split at h
  · exact absurd h (by simp)
  · exact absurd h (by simp)
  · rename_i op r1 hop
    split at h
    · rename_i e1 r2 hexpr
      injection h with h1 h2
      rw [← h1]
      have h3 := unaryOp_no_multiword hid hop
      have h4 := he _ _ _ hexpr
      simp [Expression.noMultiwordUnary, h3, h4]
    · exact absurd h (by simp)
    · exact absurd h (by simp)

theorem primaryParse_inv (expr0 : List Char → PResult Expression)
    (he : ∀ inp e r, expr0 inp = .ok e r → e.noMultiwordUnary = true)
    (fuel : Nat) {input : List Char} {e : Expression} {r : List Char}
    (h : primaryParse expr0 fuel input = .ok e r) : e.noMultiwordUnary = true := by
  unfold primaryParse at h
  rcases pOr_ok h with h1 | ⟨-, h⟩
  · exact functionParse_inv expr0 he fuel h1
  rcases pOr_ok h with h1 | ⟨-, h⟩
  · rcases pMap_ok h1 with ⟨w, -, hv⟩
    rw [hv]
    simp [Expression.noMultiwordUnary]
  rcases pOr_ok h with h1 | ⟨hif, h⟩
  · rcases pMap_ok h1 with ⟨w, -, hv⟩
    rw [hv]
    simp [Expression.noMultiwordUnary]
  · exact unaryParse_inv expr0 he (identifierParser_fail (pMap_fail hif)) h

theorem exprClimb_inv : ∀ fuel minPower input e r,
    exprClimb fuel minPower input = .ok e r → e.noMultiwordUnary = true := by
  intro fuel
  induction fuel with
  | zero =>
    intro mp input e r h
    exact absurd h (by simp [exprClimb])
  | succ f ih =>
    intro mp input e r h
    unfold exprClimb at h
    split at h
    · rename_i lhs rest hp
      have hexpr0 : ∀ inp e2 r2, exprClimb f 0 inp = .ok e2 r2 →
          e2.noMultiwordUnary = true := fun inp e2 r2 hh => ih 0 inp e2 r2 hh
      have hlhs := primaryParse_inv (exprClimb f 0) hexpr0 f hp
      exact prattLoop_inv (exprClimb f)
        (fun mp2 inp e2 r2 hh => ih mp2 inp e2 r2 hh) f mp lhs rest e r hlhs h
    · exact absurd h (by simp)
    · exact absurd h (by simp)

/-! ## Theorems about the claims -/

/-- C1: the decimal literal `9223372036854775808` (`i64::MAX + 1`) and
the hexadecimal literal `0x8000000000000000` overflow the signed 64-bit
decode; `literal.rs` unwraps the failed decode, so both the literal
lexer and the expression parser abort (Rust panic) instead of producing
a diagnostic.  This evaluates the code at the failing inputs and shows
the claim's "never panic" guarantee is violated. -/
theorem integer_overflow_aborts :
    Literal.parse "9223372036854775808".toList = .abort ∧
    Expression.parse "9223372036854775808".toList = .abort ∧
    Literal.parse "0x8000000000000000".toList = .abort ∧
    Literal.parse "9223372036854775807".toList =
      .ok (.integer 9223372036854775807) [] :=
  ⟨rfl, rfl, rfl, rfl⟩

/-- C2: the five-tier precedence table.  `5+3*2` parses with `*` bound
tighter than `+` (never as `Multiply(Add(5,3),2)`); the further
conjuncts exhibit each adjacent pair of tiers: additive binds tighter
than comparison, comparison tighter than `and`, and `and` tighter than
`or`/`xor`. -/
theorem precedence_table :
    Expression.parse "5+3*2".toList =
      .ok (.binaryExpr (.literal (.integer 5)) .add
        (.binaryExpr (.literal (.integer 3)) .multiply (.literal (.integer 2)))) [] ∧
    Expression.parse "1-2<3".toList =
      .ok (.binaryExpr
        (.binaryExpr (.literal (.integer 1)) .subtract (.literal (.integer 2)))
        .lessThan (.literal (.integer 3))) [] ∧
    Expression.parse "1<2 and 3<4".toList =
      .ok (.binaryExpr
        (.binaryExpr (.literal (.integer 1)) .lessThan (.literal (.integer 2)))
        .and
        (.binaryExpr (.literal (.integer 3)) .lessThan (.literal (.integer 4)))) [] ∧
    Expression.parse "1 or 2 and 3".toList =
      .ok (.binaryExpr (.literal (.integer 1)) .or
        (.binaryExpr (.literal (.integer 2)) .and (.literal (.integer 3)))) [] ∧
    Expression.parse "1 and 2 xor 3".toList =
      .ok (.binaryExpr
        (.binaryExpr (.literal (.integer 1)) .and (.literal (.integer 2)))
        .xor (.literal (.integer 3))) [] :=
  ⟨rfl, rfl, rfl, rfl, rfl⟩

/-- C3: left associativity.  `10-3-2` groups as `(10-3)-2`, and chains
of same-tier operators in the multiplicative and disjunction tiers group
the same way. -/
theorem left_associativity :
    Expression.parse "10-3-2".toList =
      .ok (.binaryExpr
        (.binaryExpr (.literal (.integer 10)) .subtract (.literal (.integer 3)))
        .subtract (.literal (.integer 2))) [] ∧
    Expression.parse "100/5/2".toList =
      .ok (.binaryExpr
        (.binaryExpr (.literal (.integer 100)) .divide (.literal (.integer 5)))
        .divide (.literal (.integer 2))) [] ∧
    Expression.parse "1 or 2 or 3".toList =
      .ok (.binaryExpr
        (.binaryExpr (.literal (.integer 1)) .or (.literal (.integer 2)))
        .or (.literal (.integer 3))) [] :=
  ⟨rfl, rfl, rfl⟩

/-- C4: evaluation of the code at `"a international"`.  The word
operators of `BinaryOperator::comparison` are bare `just` matches with
no trailing word boundary, so the leading `in` of the identifier
`international` IS consumed as the `In` operator and the parse succeeds
as `a in ternational` — contradicting the claim that this can never
happen. -/
theorem word_operator_prefix_match :
    Expression.parse "a international".toList =
      .ok (.binaryExpr (.identifier ⟨"a".toList⟩) .inOp
        (.identifier ⟨"ternational".toList⟩)) [] ∧
    BinaryOperator.comparison "international".toList =
      .ok .inOp "ternational".toList :=
  ⟨rfl, rfl⟩

/-- C5: octal leading-zero policy.  The octal recognizer rejects `099`
(9 is not an octal digit), the complete-literal parse of `"099"` fails
rather than reading decimal 99, `"0"` parses to integer 0, and `"076"`
parses to its base-8 value 62. -/
theorem octal_leading_zero :
    octalLexer "099".toList = .fail ∧
    Literal.parse "099".toList = .fail ∧
    Literal.parse "0".toList = .ok (.integer 0) [] ∧
    Literal.parse "076".toList = .ok (.integer 62) [] :=
  ⟨rfl, rfl, rfl, rfl⟩

/-- C7: function-call argument lists.  `f()` parses to a call with no
arguments, `f(a,b)` to a call with the two identifier arguments, and an
argument may be any full expression (`f(1+2)`). -/
theorem function_call_args :
    Expression.parse "f()".toList = .ok (.call ⟨"f".toList⟩ []) [] ∧
    Expression.parse "f(a,b)".toList =
      .ok (.call ⟨"f".toList⟩
        [.identifier ⟨"a".toList⟩, .identifier ⟨"b".toList⟩]) [] ∧
    Expression.parse "f(1+2)".toList =
      .ok (.call ⟨"f".toList⟩
        [.binaryExpr (.literal (.integer 1)) .add (.literal (.integer 2))]) [] :=
  ⟨rfl, rfl, rfl⟩

/-- C8: the embedded parser is a pure function of the input text: equal
inputs give equal results (same tree on success, same outcome on
failure), with no dependence on any other state. -/
theorem parse_deterministic (s t : List Char) (h : s = t) :
    Expression.parse s = Expression.parse t := by
  rw [h]

/-- Witness for C8 at the concrete input `"42"`. -/
theorem parse_deterministic_witness :
    Expression.parse "42".toList = Expression.parse "42".toList :=
  parse_deterministic "42".toList "42".toList rfl

/-- C6: float forms are recognized before bare integer forms.  Whenever
the float recognizer matches a prefix of the input, the literal lexer
returns exactly that Float token with the same unconsumed rest (the
whole float token is consumed), and in particular `"1.5"` lexes as
`Float 1.5` — never as `Integer 1` with leftover `".5"`. -/
theorem float_before_integer :
    (∀ input v r, floatLexer input = .ok v r →
      Literal.parser input = .ok v r ∧ v.isFloat = true) ∧
    Literal.parse "1.5".toList = .ok (.float (3 / 2)) [] := by
  constructor
  · intro input v r h
    constructor
    · unfold Literal.parser
      simp only [pOr, h]
    · rcases floatLexer_ok h with ⟨q, hv, -⟩
      rw [hv]
      rfl
  · have h0 : Literal.parse "1.5".toList = .ok (.float (floatVal ['1'] ['5'] 0)) [] := rfl
    have hval : floatVal ['1'] ['5'] 0 = 3 / 2 := by
      have h1 : decodeNat 10 ['1'] = 1 := rfl
      have h2 : decodeNat 10 ['5'] = 5 := rfl
      unfold floatVal fracVal
      rw [h1, h2]
      norm_num
    rw [h0, hval]

/-- Witness for C6 at the concrete input `"1.5"`. -/
theorem float_before_integer_witness :
    Literal.parser "1.5".toList = .ok (.float (floatVal ['1'] ['5'] 0)) [] ∧
    Literal.isFloat (.float (floatVal ['1'] ['5'] 0)) = true :=
  float_before_integer.1 "1.5".toList (.float (floatVal ['1'] ['5'] 0)) [] rfl

/-- C9: no expression tree produced by the expression parser contains a
`UnaryExpr` whose operator is `IsEmpty`, `IsNotEmpty`, `IsDefined` or
`IsNotDefined`: `primary` tries `identifier` before `unary`, and every
input on which a multi-word unary operator could match starts with the
identifier-start letter `i`, so the `unary` alternative is only reached
when those forms cannot match. -/
theorem no_multiword_unary_in_parse (input : List Char) (e : Expression)
    (h : Expression.parse input = .ok e []) :
    e.noMultiwordUnary = true := by
  unfold Expression.parse parseComplete at h
  split at h
  · rename_i v rest hv
    split at h
    · injection h with h1 h2
      unfold Expression.parser at hv
      exact h1 ▸ exprClimb_inv (exprFuel input) 0 input v rest hv
    · exact absurd h (by simp)
  · exact absurd h (by simp)
  · exact absurd h (by simp)

/-- Witness for C9 at the concrete input `"!x"`. -/
theorem no_multiword_unary_in_parse_witness :
    Expression.noMultiwordUnary
      (.unaryExpr .not (.identifier ⟨"x".toList⟩)) = true :=
  no_multiword_unary_in_parse "!x".toList
    (.unaryExpr .not (.identifier ⟨"x".toList⟩)) rfl

/-- C10: the literal lexer never produces a negative Integer or Float
value (no sign character belongs to a literal token), and `"-5"` parses
as the unary minus applied to the literal `Integer 5`, not as
`Literal(Integer -5)`. -/
theorem literal_never_negative :
    (∀ input v r, Literal.parser input = .ok v r → v.nonNegative) ∧
    Expression.parse "-5".toList =
      .ok (.unaryExpr .minus (.literal (.integer 5))) [] := by
  constructor
  · intro input v r h
    unfold Literal.parser at h
    rcases pOr_ok h with h1 | ⟨-, h⟩
    · rcases floatLexer_ok h1 with ⟨q, hv, hq⟩
      rw [hv]
      exact hq
    rcases pOr_ok h with h1 | ⟨-, h⟩
    · rcases integerLexer_ok h1 with ⟨n, hv, hn⟩
      rw [hv]
      exact hn
    rcases pOr_ok h with h1 | ⟨-, h⟩
    · rcases stringLexer_ok h1 with ⟨s, hv⟩
      rw [hv]
      trivial
    rcases pOr_ok h with h1 | ⟨-, h⟩
    · rcases booleanLexer_ok h1 with ⟨b, hv⟩
      rw [hv]
      trivial
    rcases pOr_ok h with h1 | ⟨-, h1⟩
    · rw [undefinedLexer_ok h1]
      trivial
    · rw [nullLexer_ok h1]
      trivial
  · rfl

/-- Witness for C10 at the concrete input `"5"`. -/
theorem literal_never_negative_witness :
    Literal.nonNegative (.integer 5) :=
  literal_never_negative.1 "5".toList (.integer 5) [] rfl

end Warden
